import Mathlib

/-!
# Verification of the Riftory gesture / feed / favorites subsystem

Shallow embedding of the stateful client logic of the Riftory mobile
marketplace app:

* the triple-overscroll hidden-mode unlock counter of `HomeScreen`
  (`handleScrollEndDrag`),
* the single/double tap classifier of `ReelItem` (`handleTap`),
* the looped "For You" feed construction of `ForYouScreen`
  (`loadProducts`) and the loop-id stripping of `EnhancedReelItem`
  (`getOriginalProductId`),
* the favorite-toggle paths of `EnhancedReelItem`, `HomeScreen`, and the
  session `FavoritesProvider` context.

JS strings are modelled as `List Char`, JS `Date.now()` timestamps as
`Nat` (milliseconds), and the scroll-geometry numbers as `ℚ` (the
comparisons involved are exact).  Asynchronous remote calls are modelled
by an explicit `remoteOk : Bool` outcome and by recording the issued
network calls in a trace.
-/

/-- Convert a Lean string literal to the `List Char` representation used
for JS strings throughout this development. -/
def str (s : String) : List Char := s.data

/-! ## Scroll geometry and the overscroll unlock counter (HomeScreen)

Source: `handleScrollEndDrag` in the HomeScreen component.  The refs
`overscrollCountRef` and `lastOverscrollRef` both start at `0`; a
qualifying scroll-end ("at bottom" within the 50-unit padding, with
`velocity.y < -0.5`) older than `OVERSCROLL_WINDOW` ms after the
previous one first resets the counter, then every qualifying scroll-end
increments it, and reaching `3` resets the counter and navigates to
`UpsideDown` (modelled by the returned `Bool`). -/

/-- `paddingToBottom = 50` from `handleScrollEndDrag`. -/
def paddingToBottom : ℚ := 50

/-- `OVERSCROLL_WINDOW = 3000` ms. -/
def OVERSCROLL_WINDOW : Nat := 3000

/-- The fields of the native scroll-end event read by
`handleScrollEndDrag`, plus the current `Date.now()` value.  `velocityY`
is `none` when the native event carries no `velocity` object (the code
guards with `velocity && ...`). -/
structure ScrollEndEvent where
  layoutHeight : ℚ
  contentOffsetY : ℚ
  contentHeight : ℚ
  velocityY : Option ℚ
  now : Nat
deriving DecidableEq

/-- The mutable refs of the overscroll detector:
`overscrollCountRef` and `lastOverscrollRef` (both initialised to 0). -/
structure OverscrollState where
  count : Nat
  lastOverscroll : Nat
deriving DecidableEq

/-- Initial detector state at screen mount. -/
def initOverscroll : OverscrollState := { count := 0, lastOverscroll := 0 }

/-- One `onScrollEndDrag` callback.  Returns the new ref state and
whether `navigation.navigate('UpsideDown')` fired. -/
def handleScrollEndDrag (s : OverscrollState) (e : ScrollEndEvent) :
    OverscrollState × Bool :=
  let atBottom := e.contentHeight - paddingToBottom ≤ e.layoutHeight + e.contentOffsetY
  match e.velocityY with
  | none => (s, false)
  | some vy =>
    if atBottom ∧ vy < -(1/2) then
      let count0 := if OVERSCROLL_WINDOW < e.now - s.lastOverscroll then 0 else s.count
      let count1 := count0 + 1
      if 3 ≤ count1 then ({ count := 0, lastOverscroll := e.now }, true)
      else ({ count := count1, lastOverscroll := e.now }, false)
    else (s, false)

/-- A scroll-end event qualifies as an overscroll attempt when the list
is at the bottom (within the 50-unit padding) and the event carries a
velocity with `velocity.y < -0.5`. -/
def qualifying (e : ScrollEndEvent) : Prop :=
  e.contentHeight - paddingToBottom ≤ e.layoutHeight + e.contentOffsetY ∧
    ∃ vy, e.velocityY = some vy ∧ vy < -(1/2)

/-- Run `handleScrollEndDrag` over a sequence of scroll-end events,
collecting the per-event "navigated to UpsideDown" flags. -/
def runOverscroll (s : OverscrollState) : List ScrollEndEvent → OverscrollState × List Bool
  | [] => (s, [])
  | e :: es =>
    let r := handleScrollEndDrag s e
    let rest := runOverscroll r.1 es
    (rest.1, r.2 :: rest.2)

/-! ## Tap classifier (ReelItem)

Source: `handleTap` in `ReelItem.tsx`.  `lastTapRef` starts at the
sentinel `0` and `tapTimeoutRef` at `null`.  A tap strictly less than
`DOUBLE_TAP_DELAY` ms after the previous one cancels the pending
single-tap timer, fires the double-tap action (favorite toggle)
synchronously, and resets `lastTapRef` to `0`; otherwise the tap is
recorded and a single-tap timer is scheduled `DOUBLE_TAP_DELAY` ms out.

The timer is modelled by the due time in `pending`; a due timer fires
before the next tap is processed.  (From the initial state the pending
due time is always `lastTap + DOUBLE_TAP_DELAY`, so a pending timer is
never silently discarded by the else-branch overwrite.) -/

/-- `DOUBLE_TAP_DELAY = 300` ms. -/
def DOUBLE_TAP_DELAY : Nat := 300

/-- The refs of the tap classifier: `lastTapRef` (0 = sentinel) and the
due time of the pending single-tap timeout, if any. -/
structure TapState where
  lastTap : Nat
  pending : Option Nat
deriving DecidableEq

/-- Initial classifier state. -/
def initTapState : TapState := { lastTap := 0, pending := none }

/-- Callback invocations observable from the classifier: the deferred
single-tap action (`onSingleTap`, at the time the timer fires) and the
synchronous double-tap action (favorite toggle, at the tap time). -/
inductive TapOut where
  | single (t : Nat)
  | double (t : Nat)
deriving DecidableEq

/-- Fire the pending single-tap timer if its due time has been reached. -/
def fireDue (s : TapState) (now : Nat) : TapState × List TapOut :=
  match s.pending with
  | some due =>
    if due ≤ now then ({ s with pending := none }, [TapOut.single due])
    else (s, [])
  | none => (s, [])

/-- One invocation of `handleTap` at time `now`, after letting any due
timer fire. -/
def handleTap (s : TapState) (now : Nat) : TapState × List TapOut :=
  let fd := fireDue s now
  let s1 := fd.1
  if now - s1.lastTap < DOUBLE_TAP_DELAY then
    ({ lastTap := 0, pending := none }, fd.2 ++ [TapOut.double now])
  else
    ({ lastTap := now, pending := some (now + DOUBLE_TAP_DELAY) }, fd.2)

/-- After the last tap every still-pending timer eventually fires. -/
def flushTaps (s : TapState) : List TapOut :=
  match s.pending with
  | some due => [TapOut.single due]
  | none => []

/-- Run the classifier over a (chronological) list of tap times and
collect every callback invocation, in order. -/
def runTapsFrom (s : TapState) : List Nat → List TapOut
  | [] => flushTaps s
  | t :: ts =>
    let r := handleTap s t
    r.2 ++ runTapsFrom r.1 ts

/-- Run the classifier from the mount state. -/
def runTaps (taps : List Nat) : List TapOut :=
  runTapsFrom initTapState taps

/-- Tap times separated by at least `DOUBLE_TAP_DELAY` from the previous
one (`prev` is the previous tap time, `0` initially). -/
def spacedTaps : Nat → List Nat → Prop
  | _, [] => True
  | prev, t :: ts => prev + DOUBLE_TAP_DELAY ≤ t ∧ spacedTaps t ts

/-! ### Overscroll claims -/

/-- Helper: a qualifying event takes the increment branch. -/
theorem handleScrollEndDrag_qualifying (s : OverscrollState) (e : ScrollEndEvent)
    (hq : qualifying e) :
    handleScrollEndDrag s e =
      (let count0 := if OVERSCROLL_WINDOW < e.now - s.lastOverscroll then 0 else s.count
       let count1 := count0 + 1
       if 3 ≤ count1 then ({ count := 0, lastOverscroll := e.now }, true)
       else ({ count := count1, lastOverscroll := e.now }, false)) := by
  obtain ⟨hb, vy, hv, hvy⟩ := hq
  simp only [handleScrollEndDrag, hv]
  rw [if_pos ⟨hb, hvy⟩]

/-- C1: from the mount state, three qualifying overscroll attempts, each
arriving within `OVERSCROLL_WINDOW` ms of the previous one, make the
unlock (navigation to `UpsideDown`) fire exactly once — on the third
attempt — and leave the stored counter reset to `0`. -/
theorem overscroll_three_qualifying_fires_once
    (e1 e2 e3 : ScrollEndEvent)
    (h1 : qualifying e1) (h2 : qualifying e2) (h3 : qualifying e3)
    (h12 : e2.now - e1.now ≤ OVERSCROLL_WINDOW)
    (h23 : e3.now - e2.now ≤ OVERSCROLL_WINDOW) :
    runOverscroll initOverscroll [e1, e2, e3] =
      ({ count := 0, lastOverscroll := e3.now }, [false, false, true]) := by
  have s1 : handleScrollEndDrag initOverscroll e1 =
      ({ count := 1, lastOverscroll := e1.now }, false) := by
    rw [handleScrollEndDrag_qualifying _ _ h1]
    simp [initOverscroll]
  have s2 : handleScrollEndDrag { count := 1, lastOverscroll := e1.now } e2 =
      ({ count := 2, lastOverscroll := e2.now }, false) := by
    rw [handleScrollEndDrag_qualifying _ _ h2]
    have : ¬ OVERSCROLL_WINDOW < e2.now - e1.now := by omega
    simp [this]
  have s3 : handleScrollEndDrag { count := 2, lastOverscroll := e2.now } e3 =
      ({ count := 0, lastOverscroll := e3.now }, true) := by
    rw [handleScrollEndDrag_qualifying _ _ h3]
    have : ¬ OVERSCROLL_WINDOW < e3.now - e2.now := by omega
    simp [this]
  simp [runOverscroll, s1, s2, s3]

/-- Witness for C1: the spec scenario, attempts at 0 ms, 500 ms and
1200 ms (all qualifying), fires exactly on the third attempt. -/
theorem overscroll_three_qualifying_fires_once_witness :
    runOverscroll initOverscroll
      [⟨800, 180, 1000, some (-1), 0⟩, ⟨800, 180, 1000, some (-1), 500⟩,
       ⟨800, 180, 1000, some (-1), 1200⟩] =
      ({ count := 0, lastOverscroll := 1200 }, [false, false, true]) := by
  have hb : (1000 : ℚ) - paddingToBottom ≤ 800 + 180 := by norm_num [paddingToBottom]
  have hv : (-1 : ℚ) < -(1/2) := by norm_num
  exact overscroll_three_qualifying_fires_once _ _ _
    ⟨hb, -1, rfl, hv⟩ ⟨hb, -1, rfl, hv⟩ ⟨hb, -1, rfl, hv⟩
    (by simp [OVERSCROLL_WINDOW]) (by simp [OVERSCROLL_WINDOW])

/-- C4: a qualifying attempt arriving more than `OVERSCROLL_WINDOW` ms
after the previous one resets the counter before incrementing: after
two chained qualifying attempts, a stale third attempt leaves the
counter at `1`, and two chained attempts, a gap larger than the window,
then two more chained attempts never fire the unlock. -/
theorem overscroll_stale_gap_never_fires
    (e1 e2 e3 e4 : ScrollEndEvent)
    (h1 : qualifying e1) (h2 : qualifying e2)
    (h3 : qualifying e3) (h4 : qualifying e4)
    (h12 : e2.now - e1.now ≤ OVERSCROLL_WINDOW)
    (h23 : OVERSCROLL_WINDOW < e3.now - e2.now)
    (h34 : e4.now - e3.now ≤ OVERSCROLL_WINDOW) :
    (runOverscroll initOverscroll [e1, e2, e3]).1.count = 1 ∧
      (runOverscroll initOverscroll [e1, e2, e3]).2 = [false, false, false] ∧
      (runOverscroll initOverscroll [e1, e2, e3, e4]).2 =
        [false, false, false, false] := by
  have s1 : handleScrollEndDrag initOverscroll e1 =
      ({ count := 1, lastOverscroll := e1.now }, false) := by
    rw [handleScrollEndDrag_qualifying _ _ h1]
    simp [initOverscroll]
  have s2 : handleScrollEndDrag { count := 1, lastOverscroll := e1.now } e2 =
      ({ count := 2, lastOverscroll := e2.now }, false) := by
    rw [handleScrollEndDrag_qualifying _ _ h2]
    have : ¬ OVERSCROLL_WINDOW < e2.now - e1.now := by omega
    simp [this]
  have s3 : handleScrollEndDrag { count := 2, lastOverscroll := e2.now } e3 =
      ({ count := 1, lastOverscroll := e3.now }, false) := by
    rw [handleScrollEndDrag_qualifying _ _ h3]
    simp [h23]
  have s4 : handleScrollEndDrag { count := 1, lastOverscroll := e3.now } e4 =
      ({ count := 2, lastOverscroll := e4.now }, false) := by
    rw [handleScrollEndDrag_qualifying _ _ h4]
    have : ¬ OVERSCROLL_WINDOW < e4.now - e3.now := by omega
    simp [this]
  refine ⟨?_, ?_, ?_⟩ <;> simp [runOverscroll, s1, s2, s3, s4]

/-- Witness for C4: the spec scenario, qualifying attempts at 0 ms,
500 ms and 4000 ms (stale), plus a fourth at 4200 ms: the unlock never
fires and the counter after the third attempt is `1`. -/
theorem overscroll_stale_gap_never_fires_witness :
    (runOverscroll initOverscroll
      [⟨800, 180, 1000, some (-1), 0⟩, ⟨800, 180, 1000, some (-1), 500⟩,
       ⟨800, 180, 1000, some (-1), 4000⟩]).1.count = 1 ∧
      (runOverscroll initOverscroll
        [⟨800, 180, 1000, some (-1), 0⟩, ⟨800, 180, 1000, some (-1), 500⟩,
         ⟨800, 180, 1000, some (-1), 4000⟩]).2 = [false, false, false] ∧
      (runOverscroll initOverscroll
        [⟨800, 180, 1000, some (-1), 0⟩, ⟨800, 180, 1000, some (-1), 500⟩,
         ⟨800, 180, 1000, some (-1), 4000⟩,
         ⟨800, 180, 1000, some (-1), 4200⟩]).2 = [false, false, false, false] := by
  have hb : (1000 : ℚ) - paddingToBottom ≤ 800 + 180 := by norm_num [paddingToBottom]
  have hv : (-1 : ℚ) < -(1/2) := by norm_num
  exact overscroll_stale_gap_never_fires _ _ _ _
    ⟨hb, -1, rfl, hv⟩ ⟨hb, -1, rfl, hv⟩ ⟨hb, -1, rfl, hv⟩ ⟨hb, -1, rfl, hv⟩
    (by simp [OVERSCROLL_WINDOW]) (by simp [OVERSCROLL_WINDOW])
    (by simp [OVERSCROLL_WINDOW])

/-! ### Tap classifier claims -/

/-- C3: a pair of taps whose second tap arrives strictly less than
`DOUBLE_TAP_DELAY` ms after the first produces exactly one double-tap
callback (synchronously, at the second tap) and no single-tap callback:
the pending deferred single-tap timer is cancelled. -/
theorem double_tap_pair
    (t1 t2 : Nat) (h0 : DOUBLE_TAP_DELAY ≤ t1) (h12 : t1 ≤ t2)
    (hd : t2 - t1 < DOUBLE_TAP_DELAY) :
    runTaps [t1, t2] = [TapOut.double t2] := by
  have s1 : handleTap initTapState t1 =
      ({ lastTap := t1, pending := some (t1 + DOUBLE_TAP_DELAY) }, []) := by
    simp only [handleTap, fireDue, initTapState]
    rw [if_neg (by omega)]
  have s2 : handleTap { lastTap := t1, pending := some (t1 + DOUBLE_TAP_DELAY) } t2 =
      ({ lastTap := 0, pending := none }, [TapOut.double t2]) := by
    have hnd : ¬ t1 + DOUBLE_TAP_DELAY ≤ t2 := by omega
    have ht : t2 - t1 < DOUBLE_TAP_DELAY := hd
    simp [handleTap, fireDue, hnd, ht]
  simp [runTaps, runTapsFrom, s1, s2, flushTaps]

/-- Witness for C3: taps at 1000 ms and 1299 ms yield one double-tap
and no single-tap. -/
theorem double_tap_pair_witness :
    runTaps [1000, 1299] = [TapOut.double 1299] :=
  double_tap_pair 1000 1299 (by decide) (by decide) (by decide)

/-- Helper for C5: once a tap at time `p` is recorded with its timer
pending, a chain of taps each at least `DOUBLE_TAP_DELAY` after its
predecessor yields exactly the deferred single-taps, each
`DOUBLE_TAP_DELAY` ms after its tap. -/
theorem runTapsFrom_spaced (ts : List Nat) :
    ∀ p, spacedTaps p ts →
      runTapsFrom { lastTap := p, pending := some (p + DOUBLE_TAP_DELAY) } ts =
        TapOut.single (p + DOUBLE_TAP_DELAY) ::
          ts.map (fun t => TapOut.single (t + DOUBLE_TAP_DELAY)) := by
  induction ts with
  | nil => intro p _; simp [runTapsFrom, flushTaps]
  | cons t ts ih =>
    intro p hs
    obtain ⟨hp, hs'⟩ := hs
    have hdue : p + DOUBLE_TAP_DELAY ≤ t := hp
    have hnd : ¬ t - p < DOUBLE_TAP_DELAY := by omega
    have st : handleTap { lastTap := p, pending := some (p + DOUBLE_TAP_DELAY) } t =
        ({ lastTap := t, pending := some (t + DOUBLE_TAP_DELAY) },
          [TapOut.single (p + DOUBLE_TAP_DELAY)]) := by
      simp [handleTap, fireDue, hdue, hnd]
    simp [runTapsFrom, st, ih t hs']

/-- C5: in a tap sequence in which every tap arrives at least
`DOUBLE_TAP_DELAY` ms after the previous one (the very first at least
`DOUBLE_TAP_DELAY` after mount, clearing the `0` sentinel), every tap
produces exactly one single-tap callback, `DOUBLE_TAP_DELAY` ms after
that tap, and no double-tap callback ever fires; in particular a tap
arriving exactly at the `DOUBLE_TAP_DELAY` boundary starts a fresh
single tap, because the comparison uses strict less-than. -/
theorem spaced_taps_all_single (taps : List Nat) (hs : spacedTaps 0 taps) :
    runTaps taps = taps.map (fun t => TapOut.single (t + DOUBLE_TAP_DELAY)) := by
  cases taps with
  | nil => simp [runTaps, runTapsFrom, initTapState, flushTaps]
  | cons t ts =>
    obtain ⟨hp, hs'⟩ := hs
    have hnd : ¬ t - 0 < DOUBLE_TAP_DELAY := by omega
    have st : handleTap initTapState t =
        ({ lastTap := t, pending := some (t + DOUBLE_TAP_DELAY) }, []) := by
      simp only [handleTap, fireDue, initTapState]
      rw [if_neg (by omega)]
    simp [runTaps, runTapsFrom, st, runTapsFrom_spaced ts t hs']

/-- Witness for C5: a second tap exactly at the 300 ms boundary
(taps at 1000 ms and 1300 ms) yields two single-taps and no double-tap. -/
theorem spaced_taps_all_single_witness :
    runTaps [1000, 1300] = [TapOut.single 1300, TapOut.single 1600] := by
  have h := spaced_taps_all_single [1000, 1300]
    (by simp [spacedTaps, DOUBLE_TAP_DELAY])
  simpa [DOUBLE_TAP_DELAY] using h

/-! ## Product records

Only the fields the verified logic reads are modelled; `id` is the
remote document id (or, inside the looped feed, a synthesized loop id). -/

/-- A product record. -/
structure Product where
  id : List Char
  title : List Char
  price : Int
deriving DecidableEq

/-! ## EnhancedReelItem favorite toggle

Source: `toggleFavoriteAPI` and `handleFavoritePress` in
`EnhancedReelItem`.  Both close over the render's `favorited` and
`isTogglingFavorite` state values; the remote call's success is the
parameter `remoteOk`.  Observable effects are recorded in order as a
trace: state writes to `favorited`, issued network calls, and logged
errors. -/

/-- A remote favorites-API call. -/
inductive NetCall where
  | addFavorite
  | removeFavorite
deriving DecidableEq

/-- One observable effect of a favorite-toggle handler. -/
inductive FavAction where
  | setFavorited (b : Bool)
  | call (c : NetCall)
  | logError
deriving DecidableEq

/-- The network calls issued in a trace. -/
def netCalls (tr : List FavAction) : List NetCall :=
  tr.filterMap fun a =>
    match a with
    | FavAction.call c => some c
    | _ => none

/-- The `favorited` value after a trace, starting from `f0`. -/
def finalFavorited (f0 : Bool) (tr : List FavAction) : Bool :=
  tr.foldl (fun f a =>
    match a with
    | FavAction.setFavorited b => b
    | _ => f) f0

/-- `toggleFavoriteAPI`, given the render's `favorited` and
`isTogglingFavorite` values and the remote outcome.  Returns the trace
of effects and the promised boolean result. -/
def toggleFavoriteAPI (favorited isTogglingFavorite remoteOk : Bool) :
    List FavAction × Bool :=
  if isTogglingFavorite then ([], favorited)
  else if favorited then
    if remoteOk then
      ([FavAction.call NetCall.removeFavorite, FavAction.setFavorited false], false)
    else ([FavAction.call NetCall.removeFavorite, FavAction.logError], favorited)
  else
    if remoteOk then
      ([FavAction.call NetCall.addFavorite, FavAction.setFavorited true], true)
    else ([FavAction.call NetCall.addFavorite, FavAction.logError], favorited)

/-- `handleFavoritePress` of `EnhancedReelItem`: optimistically set
`favorited` to its negation, then run `toggleFavoriteAPI` in the
background (that closure still sees the render's pre-toggle
`favorited`). -/
def handleFavoritePress (favorited isTogglingFavorite remoteOk : Bool) :
    List FavAction :=
  FavAction.setFavorited (!favorited) ::
    (toggleFavoriteAPI favorited isTogglingFavorite remoteOk).1

/-! ### EnhancedReelItem claims -/

/-- Counterexample for C6: an invocation of `toggleFavoriteAPI` while a
toggle is already in flight (`isTogglingFavorite = true`) issues zero
network calls, not exactly one — the flag coalesces concurrent
toggles. -/
theorem toggleFavoriteAPI_in_flight_no_call :
    netCalls (toggleFavoriteAPI false true true).1 = [] ∧
      (toggleFavoriteAPI false true true).2 = false := by
  decide

/-- C6 (amended): an invocation of `toggleFavoriteAPI` made while no
toggle is in flight issues exactly one network call — `addFavorite` when
the product is not currently favorited, `removeFavorite` when it is —
and, when the remote call succeeds, returns the new favorited state
(`true` if added, `false` if removed) and stores it. -/
theorem toggleFavoriteAPI_one_call (favorited remoteOk : Bool) :
    netCalls (toggleFavoriteAPI favorited false remoteOk).1 =
        [if favorited then NetCall.removeFavorite else NetCall.addFavorite] ∧
      (remoteOk = true →
        (toggleFavoriteAPI favorited false remoteOk).2 = !favorited ∧
          finalFavorited favorited (toggleFavoriteAPI favorited false remoteOk).1 =
            !favorited) := by
  cases favorited <;> cases remoteOk <;> simp [toggleFavoriteAPI, netCalls, finalFavorited]

/-- Witness for C6 (amended): not-favorited, remote succeeds. -/
theorem toggleFavoriteAPI_one_call_witness :
    netCalls (toggleFavoriteAPI false false true).1 = [NetCall.addFavorite] ∧
      ((true : Bool) = true →
        (toggleFavoriteAPI false false true).2 = !false ∧
          finalFavorited false (toggleFavoriteAPI false false true).1 = !false) :=
  toggleFavoriteAPI_one_call false true

/-- C7: the feed's `handleFavoritePress` flips the local `favorited`
flag before the remote call is issued, and when the remote toggle fails
the failure is only logged: the optimistic flipped value is left
standing (no rollback). -/
theorem handleFavoritePress_optimistic_no_rollback (favorited : Bool) :
    handleFavoritePress favorited false false =
        [FavAction.setFavorited (!favorited),
         FavAction.call (if favorited then NetCall.removeFavorite else NetCall.addFavorite),
         FavAction.logError] ∧
      finalFavorited favorited (handleFavoritePress favorited false false) =
        !favorited := by
  cases favorited <;> simp [handleFavoritePress, toggleFavoriteAPI, finalFavorited]

/-! ## HomeScreen favorite toggle

Source: `handleFavoritePress` in HomeScreen.  The `favoriteIds` JS
`Set` is modelled as a duplicate-free insertion-ordered list; the
awaited remote call either succeeds (`remoteOk = true`) or throws.  The
local set is mutated only after the awaited call resolves. -/

/-- HomeScreen `handleFavoritePress`: returns the new `favoriteIds`
value and the trace of issued calls / logged errors. -/
def homeHandleFavoritePress (favoriteIds : List (List Char))
    (productId : List Char) (remoteOk : Bool) :
    List (List Char) × List FavAction :=
  if favoriteIds.contains productId then
    if remoteOk then
      (favoriteIds.filter (fun x => x ≠ productId), [FavAction.call NetCall.removeFavorite])
    else (favoriteIds, [FavAction.call NetCall.removeFavorite, FavAction.logError])
  else
    if remoteOk then
      (favoriteIds ++ [productId], [FavAction.call NetCall.addFavorite])
    else (favoriteIds, [FavAction.call NetCall.addFavorite, FavAction.logError])

/-- C9: when the awaited remote call throws, HomeScreen's
`handleFavoritePress` leaves `favoriteIds` exactly as it was and only
logs the error (one network call was attempted, matching the
pre-invocation membership). -/
theorem homeHandleFavoritePress_error_atomic
    (favoriteIds : List (List Char)) (productId : List Char) :
    (homeHandleFavoritePress favoriteIds productId false).1 = favoriteIds ∧
      (homeHandleFavoritePress favoriteIds productId false).2 =
        [FavAction.call
          (if favoriteIds.contains productId then NetCall.removeFavorite
           else NetCall.addFavorite),
         FavAction.logError] := by
  by_cases h : productId ∈ favoriteIds <;>
    simp [homeHandleFavoritePress, h]

/-! ## Session favorites context (FavoritesProvider)

Source: `FavoritesProvider` in `UpsideDownContext.tsx`.  The provider
state `favorites : Product[]` starts empty; `addToFavorites` is a no-op
when a product with the same id is present, `removeFromFavorites`
filters by id, and `toggleFavorite` removes every entry with the id
when present, otherwise appends. -/

/-- `addToFavorites`. -/
def addToFavorites (favorites : List Product) (product : Product) : List Product :=
  if favorites.any (fun p => p.id = product.id) then favorites
  else favorites ++ [product]

/-- `removeFromFavorites`. -/
def removeFromFavorites (favorites : List Product) (productId : List Char) :
    List Product :=
  favorites.filter (fun p => p.id ≠ productId)

/-- `toggleFavorite`: returns the new list and `wasAdded`. -/
def toggleFavorite (favorites : List Product) (product : Product) :
    List Product × Bool :=
  if favorites.any (fun p => p.id = product.id) then
    (favorites.filter (fun p => p.id ≠ product.id), false)
  else (favorites ++ [product], true)

/-- One call into the favorites context. -/
inductive FavOp where
  | add (product : Product)
  | remove (productId : List Char)
  | toggle (product : Product)

/-- Apply one context call to the provider state. -/
def applyFavOp (favorites : List Product) : FavOp → List Product
  | FavOp.add p => addToFavorites favorites p
  | FavOp.remove pid => removeFromFavorites favorites pid
  | FavOp.toggle p => (toggleFavorite favorites p).1

/-- The provider state after a sequence of context calls, from the
initial empty list. -/
def runFavOps (ops : List FavOp) : List Product :=
  ops.foldl applyFavOp []

/-- Helper for C10: every context call preserves id-uniqueness. -/
theorem applyFavOp_nodup (favorites : List Product) (op : FavOp)
    (h : (favorites.map Product.id).Nodup) :
    ((applyFavOp favorites op).map Product.id).Nodup := by
  have hfilter : ∀ pid : List Char,
      ((favorites.filter (fun p => p.id ≠ pid)).map Product.id).Nodup := fun pid =>
    ((List.filter_sublist favorites).map Product.id).nodup h
  cases op with
  | add p =>
    simp only [applyFavOp, addToFavorites]
    split
    · exact h
    · rename_i hany
      simp only [List.any_eq_true, decide_eq_true_eq, not_exists, not_and] at hany
      simp only [List.map_append, List.map_cons, List.map_nil]
      refine (List.nodup_append.mpr ⟨h, List.nodup_singleton _, ?_⟩)
      intro x hx
      simp only [List.mem_map] at hx
      obtain ⟨q, hq, rfl⟩ := hx
      simpa using fun hEq => hany q hq hEq
  | remove pid => exact hfilter pid
  | toggle p =>
    simp only [applyFavOp, toggleFavorite]
    split
    · exact hfilter p.id
    · rename_i hany
      simp only [List.any_eq_true, decide_eq_true_eq, not_exists, not_and] at hany
      simp only [List.map_append, List.map_cons, List.map_nil]
      refine (List.nodup_append.mpr ⟨h, List.nodup_singleton _, ?_⟩)
      intro x hx
      simp only [List.mem_map] at hx
      obtain ⟨q, hq, rfl⟩ := hx
      simpa using fun hEq => hany q hq hEq

/-- Helper for C10: id-uniqueness is preserved along any sequence. -/
theorem foldl_applyFavOp_nodup (ops : List FavOp) :
    ∀ favorites, (favorites.map Product.id).Nodup →
      ((ops.foldl applyFavOp favorites).map Product.id).Nodup := by
  induction ops with
  | nil => intro favorites h; simpa using h
  | cons op ops ih =>
    intro favorites h
    simpa [List.foldl_cons] using ih _ (applyFavOp_nodup favorites op h)

/-- C10: starting from the empty initial list, after any sequence of
`addToFavorites`, `removeFromFavorites` and `toggleFavorite` calls the
provider's favorites list never contains two products with the same
id. -/
theorem favorites_ids_nodup (ops : List FavOp) :
    ((runFavOps ops).map Product.id).Nodup := by
  simpa [runFavOps] using foldl_applyFavOp_nodup ops [] (by simp)

/-! ## Decimal printing

`natToDec n` models the JS template interpolation of a nonnegative
integer (its base-10 digit string), as used in the synthesized loop
ids. -/

/-- Base-10 digit string, with structural fuel (any fuel above the
number suffices). -/
def natToDecCore : Nat → Nat → List Char
  | 0, _ => []
  | fuel + 1, n =>
    if n < 10 then [Char.ofNat (48 + n)]
    else natToDecCore fuel (n / 10) ++ [Char.ofNat (48 + n % 10)]

/-- Base-10 digit string of a natural number. -/
def natToDec (n : Nat) : List Char := natToDecCore (n + 1) n

/-- The decimal digit characters are digits. -/
theorem charOfNat_digit_isDigit (d : Nat) (h : d < 10) :
    (Char.ofNat (48 + d)).isDigit = true := by
  interval_cases d <;> decide

/-- Code point of a decimal digit character. -/
theorem charOfNat_digit_toNat (d : Nat) (h : d < 10) :
    (Char.ofNat (48 + d)).toNat = 48 + d := by
  interval_cases d <;> decide

/-- Every character of `natToDecCore` is a digit. -/
theorem natToDecCore_isDigit (fuel : Nat) :
    ∀ n, n < fuel → ∀ c ∈ natToDecCore fuel n, c.isDigit = true := by
  induction fuel with
  | zero => intro n h; omega
  | succ fuel ih =>
    intro n hn c hc
    rw [natToDecCore] at hc
    split at hc
    · rename_i h
      simp only [List.mem_singleton] at hc
      exact hc ▸ charOfNat_digit_isDigit n h
    · rename_i h
      rcases List.mem_append.mp hc with hc | hc
      · exact ih (n / 10) (by omega) c hc
      · simp only [List.mem_singleton] at hc
        exact hc ▸ charOfNat_digit_isDigit (n % 10) (Nat.mod_lt _ (by omega))

/-- Every character of `natToDec n` is a digit. -/
theorem natToDec_isDigit (n : Nat) : ∀ c ∈ natToDec n, c.isDigit = true :=
  natToDecCore_isDigit (n + 1) n (by omega)

/-- `natToDec` is never empty. -/
theorem natToDec_ne_nil (n : Nat) : natToDec n ≠ [] := by
  rw [natToDec, natToDecCore]
  split <;> simp

/-- Reading the digits back: folding the base-10 accumulator over
`natToDecCore` starting from `a` yields `a * 10 ^ length + n`. -/
theorem foldl_natToDecCore (fuel : Nat) :
    ∀ n, n < fuel → ∀ a,
      (natToDecCore fuel n).foldl (fun acc c => 10 * acc + (c.toNat - 48)) a =
        a * 10 ^ (natToDecCore fuel n).length + n := by
  induction fuel with
  | zero => intro n h; omega
  | succ fuel ih =>
    intro n hn a
    rw [natToDecCore]
    split
    · rename_i h
      simp [List.foldl_cons, charOfNat_digit_toNat n h]
      omega
    · rename_i h
      have hd := ih (n / 10) (by omega)
      rw [List.foldl_append, hd a, List.length_append]
      simp only [List.foldl_cons, List.foldl_nil, List.length_cons, List.length_nil]
      rw [charOfNat_digit_toNat (n % 10) (Nat.mod_lt _ (by omega))]
      have hp : a * 10 ^ ((natToDecCore fuel (n / 10)).length + (0 + 1)) =
          a * 10 ^ (natToDecCore fuel (n / 10)).length * 10 := by ring
      rw [hp]
      have hm := Nat.div_add_mod n 10
      omega

/-- `natToDec` is injective. -/
theorem natToDec_inj {m n : Nat} (h : natToDec m = natToDec n) : m = n := by
  have hm := foldl_natToDecCore (m + 1) m (by omega) 0
  have hn := foldl_natToDecCore (n + 1) n (by omega) 0
  rw [show natToDecCore (m + 1) m = natToDec m from rfl] at hm
  rw [show natToDecCore (n + 1) n = natToDec n from rfl] at hn
  rw [h] at hm
  omega

/-- A digit character is not an underscore, not a letter `l`, and not a
line terminator. -/
theorem isDigit_facts (c : Char) (h : c.isDigit = true) :
    c ≠ '_' ∧ c ≠ 'l' ∧ c ≠ '\n' ∧ c ≠ '\r' ∧ c ≠ '\u2028' ∧ c ≠ '\u2029' := by
  refine ⟨?_, ?_, ?_, ?_, ?_, ?_⟩ <;> rintro rfl <;> exact absurd h (by decide)

/-- `'_'` never occurs in a decimal digit string. -/
theorem underscore_not_mem_natToDec (n : Nat) : '_' ∉ natToDec n := by
  intro h
  exact absurd ((isDigit_facts _ (natToDec_isDigit n _ h)).1) (by simp)

/-! ## Looped feed construction (ForYouScreen) and loop-id stripping
(EnhancedReelItem)

Source: `loadProducts` in `ForYouScreen.tsx` duplicates the (already
shuffled) product list `LOOP_MULTIPLIER` times, tagging copy `i`,
position `idx` with the synthesized id `${product.id}_loop${i}_${idx}`;
`getOriginalProductId` in `EnhancedReelItem` recovers the base id with
the JS regex `^(.+)_loop\d+_\d+$` (greedy `.+`, which matches any
character except a line terminator), returning the input unchanged when
the regex does not match. -/

/-- `LOOP_MULTIPLIER = 10`. -/
def LOOP_MULTIPLIER : Nat := 10

/-- The synthesized id of copy `i`, position `idx`:
`${product.id}_loop${i}_${idx}`. -/
def loopId (baseId : List Char) (i idx : Nat) : List Char :=
  baseId ++ str "_loop" ++ natToDec i ++ '_' :: natToDec idx

/-- The looped feed: for `i` in `0..multiplier-1`, every product of the
(shuffled) list, re-tagged with its synthesized loop id. -/
def loopProducts (multiplier : Nat) (shuffled : List Product) : List Product :=
  (List.range multiplier).flatMap fun i =>
    shuffled.enum.map fun e => { e.2 with id := loopId e.2.id i e.1 }

/-- JS regex line terminators, which `.` does not match. -/
def isLineTerminator (c : Char) : Bool :=
  c == '\n' || c == '\r' || c == '\u2028' || c == '\u2029'

/-- `\d+` then `_` then `\d+` to the end, after the first digit was
consumed: digits, then an underscore followed by a nonempty digit
string. -/
def digitsURest : List Char → Bool
  | [] => false
  | c :: rest =>
    if c.isDigit then digitsURest rest
    else c == '_' && !rest.isEmpty && rest.all (·.isDigit)

/-- Whole-list match of `\d+_\d+`. -/
def digitsUD : List Char → Bool
  | [] => false
  | c :: rest => c.isDigit && digitsURest rest

/-- Whole-list match of `_loop\d+_\d+`. -/
def loopSuffixMatch : List Char → Bool
  | c1 :: c2 :: c3 :: c4 :: c5 :: rest =>
    c1 == '_' && c2 == 'l' && c3 == 'o' && c4 == 'o' && c5 == 'p' && digitsUD rest
  | _ => false

/-- A valid split of the id for the regex `^(.+)_loop\d+_\d+$`: the
group (the first `k` characters) is nonempty and free of line
terminators, and the remainder matches `_loop\d+_\d+`. -/
def validSplit (id : List Char) (k : Nat) : Bool :=
  decide (0 < k) && (id.take k).all (fun c => !isLineTerminator c) &&
    loopSuffixMatch (id.drop k)

/-- The length of the group captured by the greedy `.+`: the largest
valid split, if any. -/
def greedyGroupLen (id : List Char) : Option Nat :=
  (List.range id.length).reverse.find? (validSplit id)

/-- `getOriginalProductId`: strip the trailing `_loop{i}_{idx}` tag when
the regex matches, otherwise return the id unchanged. -/
def getOriginalProductId (id : List Char) : List Char :=
  match greedyGroupLen id with
  | some k => id.take k
  | none => id

/-- `str "_loop"` as an explicit character list. -/
theorem str_loop_eq : str "_loop" = ['_', 'l', 'o', 'o', 'p'] := rfl

/-- Shape characterisation of a `_loop\d+_\d+` match. -/
theorem loopSuffixMatch_iff (l : List Char) :
    loopSuffixMatch l = true ↔
      ∃ rest, l = '_' :: 'l' :: 'o' :: 'o' :: 'p' :: rest ∧ digitsUD rest = true := by
  rcases l with _ | ⟨c1, _ | ⟨c2, _ | ⟨c3, _ | ⟨c4, _ | ⟨c5, rest⟩⟩⟩⟩⟩ <;>
    simp only [loopSuffixMatch, Bool.and_eq_true, beq_iff_eq,
      Bool.false_eq_true, List.cons.injEq] <;>
    aesop

/-- `digitsURest` accepts digits, then `_`, then a nonempty digit
string. -/
theorem digitsURest_append (d1 : List Char) (h1 : ∀ c ∈ d1, c.isDigit = true)
    (d2 : List Char) (h2 : ∀ c ∈ d2, c.isDigit = true) (hne : d2 ≠ []) :
    digitsURest (d1 ++ '_' :: d2) = true := by
  induction d1 with
  | nil =>
    have : ('_' : Char).isDigit = false := by decide
    simp only [List.nil_append, digitsURest, this, Bool.false_eq_true, ↓reduceIte,
      Bool.and_eq_true, beq_self_eq_true, true_and, Bool.not_eq_true,
      Bool.not_eq_true', List.isEmpty_eq_false, List.all_eq_true]
    refine ⟨hne, h2⟩
  | cons c d1 ih =>
    have hc : c.isDigit = true := h1 c (by simp)
    simp only [List.cons_append, digitsURest, hc, if_true]
    exact ih fun x hx => h1 x (by simp [hx])

/-- `digitsUD` accepts a nonempty digit string, `_`, and a nonempty
digit string. -/
theorem digitsUD_append (d1 : List Char) (h1 : ∀ c ∈ d1, c.isDigit = true)
    (hne1 : d1 ≠ []) (d2 : List Char) (h2 : ∀ c ∈ d2, c.isDigit = true)
    (hne2 : d2 ≠ []) : digitsUD (d1 ++ '_' :: d2) = true := by
  obtain ⟨c, d1', rfl⟩ := List.exists_cons_of_ne_nil hne1
  simp only [List.cons_append, digitsUD, Bool.and_eq_true]
  exact ⟨h1 c (by simp),
    digitsURest_append d1' (fun x hx => h1 x (by simp [hx])) d2 h2 hne2⟩

/-- The appended loop tag matches `_loop\d+_\d+` in full. -/
theorem loopSuffixMatch_tag (i idx : Nat) :
    loopSuffixMatch (str "_loop" ++ natToDec i ++ '_' :: natToDec idx) = true := by
  rw [str_loop_eq]
  refine (loopSuffixMatch_iff _).mpr ⟨natToDec i ++ '_' :: natToDec idx, by simp, ?_⟩
  exact digitsUD_append _ (natToDec_isDigit i) (natToDec_ne_nil i) _
    (natToDec_isDigit idx) (natToDec_ne_nil idx)

/-- A list starting with a digit never matches `_loop\d+_\d+`. -/
theorem loopSuffixMatch_head_digit (c : Char) (t : List Char)
    (h : c.isDigit = true) : loopSuffixMatch (c :: t) = false := by
  rcases hb : loopSuffixMatch (c :: t) with _ | _
  · rfl
  · obtain ⟨rest, heq, -⟩ := (loopSuffixMatch_iff _).mp hb
    obtain rfl : c = '_' := by injection heq
    exact absurd h (by decide)

/-- An underscore followed by a digit never matches `_loop\d+_\d+`. -/
theorem loopSuffixMatch_underscore_digit (c : Char) (t : List Char)
    (h : c.isDigit = true) : loopSuffixMatch ('_' :: c :: t) = false := by
  rcases hb : loopSuffixMatch ('_' :: c :: t) with _ | _
  · rfl
  · obtain ⟨rest, heq, -⟩ := (loopSuffixMatch_iff _).mp hb
    have : c = 'l' := by injection heq with h1 h2; injection h2
    exact absurd h (this ▸ by decide)

/-- No suffix of `digits ++ '_' :: digits` (the digit strings nonempty)
matches `_loop\d+_\d+`. -/
theorem loopSuffixMatch_drop_digits (d1 d2 : List Char)
    (h1 : ∀ c ∈ d1, c.isDigit = true) (h2 : ∀ c ∈ d2, c.isDigit = true)
    (hne : d2 ≠ []) (j : Nat) :
    loopSuffixMatch ((d1 ++ '_' :: d2).drop j) = false := by
  rw [List.drop_append_eq_append_drop]
  rcases hd : d1.drop j with _ | ⟨c, r⟩
  · rcases hm : j - d1.length with _ | m
    · obtain ⟨e, d2', rfl⟩ := List.exists_cons_of_ne_nil hne
      simp only [List.nil_append, List.drop_zero]
      exact loopSuffixMatch_underscore_digit e d2' (h2 e (by simp))
    · simp only [List.nil_append, List.drop_succ_cons]
      rcases he : d2.drop m with _ | ⟨e, r2⟩
      · simp [loopSuffixMatch]
      · have he2 : e ∈ d2 := List.drop_subset m d2 (he ▸ by simp)
        exact loopSuffixMatch_head_digit e r2 (h2 e he2)
  · have hc : c ∈ d1 := List.drop_subset j d1 (hd ▸ by simp)
    simp only [List.cons_append]
    exact loopSuffixMatch_head_digit c _ (h1 c hc)

/-- A list whose head is not an underscore never matches
`_loop\d+_\d+`. -/
theorem loopSuffixMatch_head_ne (c : Char) (t : List Char) (h : c ≠ '_') :
    loopSuffixMatch (c :: t) = false := by
  rcases hb : loopSuffixMatch (c :: t) with _ | _
  · rfl
  · obtain ⟨rest, heq, -⟩ := (loopSuffixMatch_iff _).mp hb
    exact absurd (by injection heq) h

/-- No proper suffix of the appended loop tag matches `_loop\d+_\d+`. -/
theorem loopSuffixMatch_tag_drop (i idx : Nat) (j : Nat) (hj : 0 < j) :
    loopSuffixMatch ((str "_loop" ++ natToDec i ++ '_' :: natToDec idx).drop j) =
      false := by
  rw [str_loop_eq]
  have key := loopSuffixMatch_drop_digits (natToDec i) (natToDec idx)
    (natToDec_isDigit i) (natToDec_isDigit idx) (natToDec_ne_nil idx)
  simp only [List.cons_append, List.nil_append]
  rcases j with _ | _ | _ | _ | _ | j
  · omega
  · simp only [List.drop_succ_cons, List.drop_zero]
    exact loopSuffixMatch_head_ne 'l' _ (by decide)
  · simp only [List.drop_succ_cons, List.drop_zero]
    exact loopSuffixMatch_head_ne 'o' _ (by decide)
  · simp only [List.drop_succ_cons, List.drop_zero]
    exact loopSuffixMatch_head_ne 'o' _ (by decide)
  · simp only [List.drop_succ_cons, List.drop_zero]
    exact loopSuffixMatch_head_ne 'p' _ (by decide)
  · simp only [List.drop_succ_cons]
    exact key j

/-- `find?` over a descending range returns the largest index
satisfying the predicate. -/
theorem find_reverse_range (p : Nat → Bool) :
    ∀ n k0, k0 < n → p k0 = true → (∀ k, k0 < k → k < n → p k = false) →
      (List.range n).reverse.find? p = some k0 := by
  intro n
  induction n with
  | zero => intro k0 h; omega
  | succ n ih =>
    intro k0 hk hp hbig
    rw [List.range_succ, List.reverse_append]
    simp only [List.reverse_singleton, List.singleton_append, List.find?_cons]
    rcases Nat.lt_or_ge k0 n with hlt | hge
    · rw [hbig n hlt (by omega)]
      exact ih k0 hlt hp fun k h1 h2 => hbig k h1 (by omega)
    · have : k0 = n := by omega
      subst this
      rw [hp]

/-- The greedy group of a well-formed loop id is exactly the base id:
`getOriginalProductId` strips precisely the appended `_loop{i}_{idx}`
tag when the base id is nonempty and free of line terminators. -/
theorem getOriginalProductId_loopId (a : List Char) (i idx : Nat)
    (hne : a ≠ []) (hlt : ∀ c ∈ a, isLineTerminator c = false) :
    getOriginalProductId (loopId a i idx) = a := by
  have hlen : (loopId a i idx).length =
      a.length + 6 + (natToDec i).length + (natToDec idx).length := by
    simp [loopId, str_loop_eq, List.length_append]
    omega
  have htake : (loopId a i idx).take a.length = a := by
    have : loopId a i idx = a ++ (str "_loop" ++ natToDec i ++ '_' :: natToDec idx) := by
      simp [loopId, List.append_assoc]
    rw [this, List.take_left]
  have hdrop : ∀ j, (loopId a i idx).drop (a.length + j) =
      (str "_loop" ++ natToDec i ++ '_' :: natToDec idx).drop j := by
    intro j
    have : loopId a i idx = a ++ (str "_loop" ++ natToDec i ++ '_' :: natToDec idx) := by
      simp [loopId, List.append_assoc]
    rw [this, List.drop_append_eq_append_drop, List.drop_eq_nil_of_le (by omega),
      List.nil_append]
    congr 1
    omega
  have hvalid : validSplit (loopId a i idx) a.length = true := by
    have h0 : 0 < a.length := List.length_pos.mpr hne
    have hall : (a.all fun c => !isLineTerminator c) = true := by
      rw [List.all_eq_true]
      intro c hc
      simp [hlt c hc]
    have hsfx := hdrop 0
    rw [Nat.add_zero, List.drop_zero] at hsfx
    unfold validSplit
    rw [htake, hsfx, loopSuffixMatch_tag, hall]
    simp [h0]
  have hinvalid : ∀ k, a.length < k → k < (loopId a i idx).length →
      validSplit (loopId a i idx) k = false := by
    intro k hk hk2
    have hdk := hdrop (k - a.length)
    rw [show a.length + (k - a.length) = k by omega] at hdk
    have hfalse := loopSuffixMatch_tag_drop i idx (k - a.length) (by omega)
    unfold validSplit
    rw [hdk, hfalse, Bool.and_false]
  have hfind : greedyGroupLen (loopId a i idx) = some a.length := by
    unfold greedyGroupLen
    exact find_reverse_range _ _ a.length (by omega) hvalid hinvalid
  simp only [getOriginalProductId, hfind]
  exact htake

/-- Splitting at the last occurrence of a separator is unambiguous:
if the separator does not occur in either tail, the parts agree. -/
theorem append_sep_inj (sep : Char) :
    ∀ x1 x2 d1 d2 : List Char, sep ∉ d1 → sep ∉ d2 →
      x1 ++ sep :: d1 = x2 ++ sep :: d2 → x1 = x2 ∧ d1 = d2 := by
  intro x1
  induction x1 with
  | nil =>
    intro x2 d1 d2 h1 h2 heq
    cases x2 with
    | nil => simpa using heq
    | cons c x2 =>
      exfalso
      simp only [List.nil_append, List.cons_append, List.cons.injEq] at heq
      exact h1 (heq.2 ▸ List.mem_append.mpr (Or.inr (List.mem_cons_self _ _)))
  | cons c x1 ih =>
    intro x2 d1 d2 h1 h2 heq
    cases x2 with
    | nil =>
      exfalso
      simp only [List.cons_append, List.nil_append, List.cons.injEq] at heq
      exact h2 (heq.2 ▸ List.mem_append.mpr (Or.inr (List.mem_cons_self _ _)))
    | cons c2 x2 =>
      simp only [List.cons_append, List.cons.injEq] at heq
      obtain ⟨rfl, heq⟩ := heq
      obtain ⟨rfl, rfl⟩ := ih x2 d1 d2 h1 h2 heq
      exact ⟨rfl, rfl⟩

/-- The synthesized loop id determines the base id, the copy number and
the position. -/
theorem loopId_inj {a1 a2 : List Char} {i1 i2 idx1 idx2 : Nat}
    (h : loopId a1 i1 idx1 = loopId a2 i2 idx2) :
    a1 = a2 ∧ i1 = i2 ∧ idx1 = idx2 := by
  have hnu : ∀ n : Nat, '_' ∉ natToDec n := underscore_not_mem_natToDec
  have h' : (a1 ++ str "_loop" ++ natToDec i1) ++ '_' :: natToDec idx1 =
      (a2 ++ str "_loop" ++ natToDec i2) ++ '_' :: natToDec idx2 := by
    simpa [loopId, List.append_assoc] using h
  obtain ⟨hx, hidx⟩ := append_sep_inj '_' _ _ _ _ (hnu idx1) (hnu idx2) h'
  have hidx' : idx1 = idx2 := natToDec_inj hidx
  have hnl : ∀ n : Nat, '_' ∉ ('l' :: 'o' :: 'o' :: 'p' :: natToDec n) := by
    intro n hmem
    simp only [List.mem_cons] at hmem
    rcases hmem with h | h | h | h | h
    · exact absurd h (by decide)
    · exact absurd h (by decide)
    · exact absurd h (by decide)
    · exact absurd h (by decide)
    · exact hnu n h
  have hx' : a1 ++ '_' :: ('l' :: 'o' :: 'o' :: 'p' :: natToDec i1) =
      a2 ++ '_' :: ('l' :: 'o' :: 'o' :: 'p' :: natToDec i2) := by
    simpa [str_loop_eq, List.append_assoc] using hx
  obtain ⟨ha, hi⟩ := append_sep_inj '_' _ _ _ _ (hnl i1) (hnl i2) hx'
  have hi' : i1 = i2 := by
    apply natToDec_inj
    simpa using hi
  exact ⟨ha, hi', hidx'⟩

/-- The ids of the looped feed, arranged by copy. -/
theorem loopProducts_map_id (m : Nat) (ps : List Product) :
    (loopProducts m ps).map Product.id =
      (List.range m).flatMap fun i => ps.enum.map fun e => loopId e.2.id i e.1 := by
  simp only [loopProducts, List.map_flatMap, List.map_map]
  rfl

/-- `enum` never repeats an entry. -/
theorem enum_nodup (ps : List Product) : ps.enum.Nodup :=
  List.Nodup.of_map Prod.fst (List.nodup_enum_map_fst ps)

/-- The synthesized ids of the looped feed are pairwise distinct, for
every input list. -/
theorem loopProducts_ids_nodup (m : Nat) (ps : List Product) :
    ((loopProducts m ps).map Product.id).Nodup := by
  rw [loopProducts_map_id, List.nodup_flatMap]
  constructor
  · intro i _
    refine List.Nodup.map_on ?_ (enum_nodup ps)
    intro e1 h1 e2 h2 heq
    obtain ⟨hid, -, hidx⟩ := loopId_inj heq
    have g1 := List.mem_enum_iff_getElem?.mp h1
    have g2 := List.mem_enum_iff_getElem?.mp h2
    rw [hidx] at g1
    have : some e1.2 = some e2.2 := g1.symm.trans g2
    have h22 : e1.2 = e2.2 := by injection this
    exact Prod.ext hidx h22
  · refine List.Pairwise.imp ?_ (List.pairwise_lt_range m)
    intro i1 i2 hlt x hx1 hx2
    simp only [List.mem_map] at hx1 hx2
    obtain ⟨e1, -, he1⟩ := hx1
    obtain ⟨e2, -, he2⟩ := hx2
    obtain ⟨-, hi, -⟩ := loopId_inj (he1.trans he2.symm)
    omega

/-- The looped feed has `multiplier * ps.length` entries. -/
theorem loopProducts_length (m : Nat) (ps : List Product) :
    (loopProducts m ps).length = m * ps.length := by
  induction m with
  | zero => simp [loopProducts]
  | succ m ih =>
    rw [loopProducts, List.range_succ, List.flatMap_append] at *
    simp only [List.length_append, ih, List.flatMap_cons, List.flatMap_nil,
      List.append_nil, List.length_map, List.enum_length]
    ring

/-- Every looped entry is an input product re-tagged with a loop id. -/
theorem mem_loopProducts {q : Product} {m : Nat} {ps : List Product}
    (h : q ∈ loopProducts m ps) :
    ∃ p ∈ ps, ∃ i idx, q = { p with id := loopId p.id i idx } := by
  simp only [loopProducts, List.mem_flatMap, List.mem_map] at h
  obtain ⟨i, -, e, he, rfl⟩ := h
  have hp : e.2 ∈ ps :=
    List.getElem?_mem (List.mem_enum_iff_getElem?.mp he)
  exact ⟨e.2, hp, i, e.1, rfl⟩

/-! ### Looped feed claims -/

/-- Counterexample for C2: with an input product whose id is the empty
string, the regex `^(.+)_loop\d+_\d+$` cannot match the synthesized id
(`.+` needs at least one character), so `getOriginalProductId` returns
the synthesized id unchanged — which is not an id of the input list. -/
theorem looped_feed_roundtrip_fails_on_empty_id :
    ¬ ∀ q ∈ loopProducts LOOP_MULTIPLIER
          [({ id := [], title := [], price := 0 } : Product)],
        getOriginalProductId q.id ∈
          ([({ id := [], title := [], price := 0 } : Product)].map Product.id) := by
  decide

/-- C2 (amended): for every input list of products whose ids are
nonempty and free of line terminators, the looped feed built with
`LOOP_MULTIPLIER = 10` has exactly `10 * M` entries, all synthesized
ids are pairwise distinct, and stripping the loop tag from any entry
recovers an id present in the input list. -/
theorem looped_feed_correct (ps : List Product)
    (h : ∀ p ∈ ps, p.id ≠ [] ∧ ∀ c ∈ p.id, isLineTerminator c = false) :
    (loopProducts LOOP_MULTIPLIER ps).length = LOOP_MULTIPLIER * ps.length ∧
      ((loopProducts LOOP_MULTIPLIER ps).map Product.id).Nodup ∧
      ∀ q ∈ loopProducts LOOP_MULTIPLIER ps,
        getOriginalProductId q.id ∈ ps.map Product.id := by
  refine ⟨loopProducts_length _ _, loopProducts_ids_nodup _ _, ?_⟩
  intro q hq
  obtain ⟨p, hp, i, idx, rfl⟩ := mem_loopProducts hq
  obtain ⟨hne, hlt⟩ := h p hp
  have : getOriginalProductId (loopId p.id i idx) = p.id :=
    getOriginalProductId_loopId p.id i idx hne hlt
  simpa [this] using List.mem_map_of_mem Product.id hp

/-- Witness for C2 (amended): a singleton input list with id `"a"`. -/
theorem looped_feed_correct_witness :
    (loopProducts LOOP_MULTIPLIER [({ id := str "a", title := str "A", price := 1 } :
          Product)]).length = LOOP_MULTIPLIER * 1 ∧
      ((loopProducts LOOP_MULTIPLIER [({ id := str "a", title := str "A", price := 1 } :
          Product)]).map Product.id).Nodup ∧
      ∀ q ∈ loopProducts LOOP_MULTIPLIER
          [({ id := str "a", title := str "A", price := 1 } : Product)],
        getOriginalProductId q.id ∈
          ([({ id := str "a", title := str "A", price := 1 } : Product)].map
            Product.id) := by
  have h := looped_feed_correct
    [({ id := str "a", title := str "A", price := 1 } : Product)] (by decide)
  simpa using h

/-- C8: for input products `a`, `b` and loop multiplier 2, the looped
feed has exactly the four ids `a_loop0_0`, `b_loop0_1`, `a_loop1_0`,
`b_loop1_1`, and stripping the loop tag recovers the base ids
`{a, b}`. -/
theorem looped_feed_scenario :
    (loopProducts 2 [({ id := str "a", title := [], price := 0 } : Product),
          ({ id := str "b", title := [], price := 0 } : Product)]).map Product.id =
        [str "a_loop0_0", str "b_loop0_1", str "a_loop1_0", str "b_loop1_1"] ∧
      (loopProducts 2 [({ id := str "a", title := [], price := 0 } : Product),
          ({ id := str "b", title := [], price := 0 } : Product)]).length = 4 ∧
      (loopProducts 2 [({ id := str "a", title := [], price := 0 } : Product),
          ({ id := str "b", title := [], price := 0 } : Product)]).map
          (fun q => getOriginalProductId q.id) =
        [str "a", str "b", str "a", str "b"] := by
  decide
